import Mathlib

/-!
Verification development for the `eppcli` tool (src/main.rs): a shallow
embedding of its discovery, apply and read/format logic, followed by
theorems settling the specification claims.

The ambient filesystem is modelled explicitly: the base-directory listing
is an input to discovery, and each control file's state (content plus the
way open/write/flush behave on it) is an input to the apply and read
operations.  Machine integers (`u32`, `u8`) are modelled as `Nat` with
explicit bounds where the code's parsing enforces them.
-/

set_option maxHeartbeats 1000000

namespace EppCli

/-! ## Character-list utilities

Byte-wise (code-point-wise) lexicographic comparison, mirroring Rust's
`str`/`OsStr` ordering on the ASCII strings this program manipulates. -/

def charListLe : List Char → List Char → Bool
  | [], _ => true
  | _ :: _, [] => false
  | a :: as, b :: bs =>
    if a.toNat < b.toNat then true
    else if b.toNat < a.toNat then false
    else charListLe as bs

/-- ASCII decimal digit test ('0'..'9'). -/
def isDigitChar (c : Char) : Bool := 48 ≤ c.toNat && c.toNat ≤ 57

/-- Value of a most-significant-digit-first ASCII digit string. -/
def digitsToNat (cs : List Char) : Nat := cs.foldl (fun a c => a * 10 + (c.toNat - 48)) 0

/-- Drop a single leading '+', as Rust's unsigned integer parser does. -/
def dropPlus (cs : List Char) : List Char :=
  match cs with
  | [] => []
  | c :: rest => if c = '+' then rest else c :: rest

/-- Embedding of `str::parse::<u32>()`: an optional leading '+', then one
or more decimal digits, value below 2^32; anything else (empty input, other
signs, non-digits, overflow) fails. -/
def parseU32 (s : String) : Option Nat :=
  let body := dropPlus s.data
  if body = [] then none
  else if body.all isDigitChar then
    if digitsToNat body < 4294967296 then some (digitsToNat body) else none
  else none

/-- Embedding of `dir_name.strip_prefix("cpu")`: `some` of the remainder
when the string starts with "cpu", otherwise `none`. -/
def stripCpu (s : String) : Option String :=
  match s.data with
  | c1 :: c2 :: c3 :: rest =>
    if c1 = 'c' ∧ c2 = 'p' ∧ c3 = 'u' then some (String.mk rest) else none
  | _ => none

/-- Decimal digits of `n`, most significant first (fuel-based). -/
def natReprAux : Nat → Nat → List Char
  | 0, _ => []
  | fuel + 1, n =>
    if n < 10 then [Char.ofNat (48 + n)]
    else natReprAux fuel (n / 10) ++ [Char.ofNat (48 + n % 10)]

def natRepr (n : Nat) : List Char := natReprAux (n + 1) n

/-- Zero-pad a digit string on the left to width 2, as `format!("{:02}")`
does (strings already of length ≥ 2 are unchanged). -/
def pad2 (ds : List Char) : List Char :=
  if ds.length < 2 then List.replicate (2 - ds.length) '0' ++ ds else ds

/-- The CoreLabel built by the read path: `format!("CPU{:02}", cpu_num)`. -/
def cpuLabel (n : Nat) : String := ⟨'C' :: 'P' :: 'U' :: pad2 (natRepr n)⟩

/-- Whitespace test for `str::trim`; the control-file contents this program
handles are ASCII tokens plus the usual ASCII whitespace. -/
def isWsChar (c : Char) : Bool := c = ' ' || c = '\n' || c = '\t' || c = '\r'

def trimChars (cs : List Char) : List Char :=
  ((cs.dropWhile isWsChar).reverse.dropWhile isWsChar).reverse

/-- Embedding of `str::trim`. -/
def strTrim (s : String) : String := ⟨trimChars s.data⟩

/-- Embedding of `format!("{:width$}", s)`: left-align and pad with
trailing spaces up to `w`; longer strings are left unchanged. -/
def padRight (s : String) (w : Nat) : String :=
  s ++ String.mk (List.replicate (w - s.length) ' ')

/-- Embedding of `Vec::join` on strings. -/
def joinSep (sep : String) : List String → String
  | [] => ""
  | [x] => x
  | x :: xs => x ++ sep ++ joinSep sep xs

/-- Embedding of `chunks(3)`: split a list into consecutive groups of
three, the last group possibly shorter. -/
def chunks3 {α : Type} : List α → List (List α)
  | [] => []
  | a :: b :: c :: rest => [a, b, c] :: chunks3 rest
  | l => [l]

/-- `needle` occurs contiguously inside `hay`. -/
def containsSub (hay needle : List Char) : Prop := ∃ a b, hay = a ++ needle ++ b

/-! ## Errors -/

/-- The `std::io::ErrorKind` values this program creates or inspects. -/
inductive ErrorKind where
  | notFound
  | permissionDenied
  | invalidData
  | other
deriving DecidableEq

/-- An `std::io::Error`: a kind plus a human-readable message. -/
structure IoError where
  kind : ErrorKind
  msg : String
deriving DecidableEq

/-! ## Data model -/

/-- A discovered control-file location.  Every path this program builds has
the fixed shape `/sys/devices/system/cpu/<cpuDir>/cpufreq/energy_performance_preference`,
so it is identified by its per-core directory component.  In particular
`path.parent().parent().file_name()` in the read path is `cpuDir`. -/
structure EppPath where
  cpuDir : String
deriving DecidableEq

def basePath : String := "/sys/devices/system/cpu/"

def eppRelPath : String := "cpufreq/energy_performance_preference"

def EppPath.pathString (p : EppPath) : String :=
  basePath ++ p.cpuDir ++ "/" ++ eppRelPath

/-- One immediate child of the base directory, as `read_dir` reports it:
its file name, whether it is a directory, and whether the relative subpath
`cpufreq/energy_performance_preference` exists beneath it. -/
structure DirEntry where
  name : String
  isDir : Bool
  hasEppFile : Bool
deriving DecidableEq

/-! ## Discovery (`AmdEppMgr::new`) -/

/-- The filter of the discovery loop: keep an entry when it is a directory,
its name strips a "cpu" prefix whose remainder parses as `u32`, and the
control file exists beneath it; the recorded location is the joined path. -/
def qualify (entries : List DirEntry) : List EppPath :=
  entries.filterMap (fun e =>
    if e.isDir then
      match stripCpu e.name with
      | some numStr =>
        if (parseU32 numStr).isSome then
          if e.hasEppFile then some ⟨e.name⟩ else none
        else none
      | none => none
    else none)

/-- `Vec<PathBuf>::sort` order on the discovered paths.  `PathBuf` compares
component-wise with byte-wise component order; the discovered paths share
the base components and the trailing `cpufreq/energy_performance_preference`
components and differ only in the per-core directory name, so the order is
byte-wise order on that name. -/
abbrev pathRel (p q : EppPath) : Prop := charListLe p.cpuDir.data q.cpuDir.data = true

def notFoundErr : IoError := ⟨.notFound, "Error: No CPU energy preference files found."⟩

/-- Embedding of `AmdEppMgr::new`.  The result of `fs::read_dir` on the
base directory is the explicit input: either an enumeration failure or the
list of entries (per-entry iteration errors are folded into the
enumeration outcome, as both reach the caller through `?`). -/
def AmdEppMgr.new (readDir : Except IoError (List DirEntry)) : Except IoError (List EppPath) :=
  match readDir with
  | .error e => .error e
  | .ok entries =>
    let epp_paths := List.insertionSort pathRel (qualify entries)
    if epp_paths = [] then .error notFoundErr else .ok epp_paths

/-! ## Profile values (`EppValue`) -/

inductive EppValue where
  | performance
  | balancePerformance
  | balancePower
  | power
deriving DecidableEq

def EppValue.as_str : EppValue → String
  | .performance => "performance"
  | .balancePerformance => "balance_performance"
  | .balancePower => "balance_power"
  | .power => "power"

/-- Embedding of `EppValue::from_level` (the `u8` argument becomes a `Nat`;
the code matches 0, 1, 2, 3 and sends everything else to `None`). -/
def EppValue.from_level : Nat → Option EppValue
  | 0 => some .performance
  | 1 => some .balancePerformance
  | 2 => some .balancePower
  | 3 => some .power
  | _ => none

/-- The `-p LEVEL` branch of `run_app`: a level maps through `from_level`,
and `None` becomes the invalid-argument error message. -/
def levelAction (level : Nat) : Except String EppValue :=
  match EppValue.from_level level with
  | some p => .ok p
  | none =>
    .error ("Invalid profile level: " ++ String.mk (natRepr level) ++
      ". Must be between 0 and 3.")

/-! ## Control-file state for apply/read -/

/-- How the filesystem behaves when this location's control file is opened
for writing: success, permission denial at open, another open failure, a
`write_all` failure, or a `flush` failure. -/
inductive Behavior where
  | writable
  | openPermDenied (details : String)
  | openOtherErr (details : String)
  | writeErr (e : IoError)
  | flushErr (e : IoError)
deriving DecidableEq

/-- The per-location ambient state: the control file's current raw content
together with how writing and reading behave on it. -/
structure LocState where
  path : EppPath
  content : String
  behavior : Behavior
  readErr : Option IoError
deriving DecidableEq

/-- Modelled from the spec (§6 filesystem contract): the control file is a
sysfs attribute, so a successful `write_all` of `token ++ "\n"` replaces
the stored value wholesale (write-in-place; the fixed-size sysfs-like file
needs no truncation and keeps no residue of earlier longer values). -/
def writeLoc (token : String) (l : LocState) : LocState :=
  { l with content := token ++ "\n" }

/-- The three distinguishable error shapes `apply_profile` produces: the
dedicated permission message, the failed-to-open message, and a bare
`io::Error` propagated by `?` from `write_all`/`flush`. -/
inductive ApplyErr where
  | permission (path : String) (details : String)
  | openFail (path : String) (details : String)
  | ioErr (e : IoError)
deriving DecidableEq

def guidanceMsg : String := "Ensure you have root privileges to modify EPP settings."

/-- The exact message text each `apply_profile` error displays. -/
def applyErrMsg : ApplyErr → String
  | .permission p d =>
    "\nPermission error for writing to " ++ p ++ ".\n" ++ guidanceMsg ++
      "\nError details: " ++ d
  | .openFail p d =>
    "\nFailed to open " ++ p ++ " for writing.\nError details: " ++ d
  | .ioErr e => e.msg

/-- Embedding of `AmdEppMgr::apply_profile`: walk the locations in order;
on success replace the content with `token ++ "\n"` and continue; on the
first failure stop with the corresponding error.  The returned list is the
final state of every location (a flush failure happens after the write
succeeded, so that location keeps the new content). -/
def apply_profile (token : String) : List LocState → List LocState × Option ApplyErr
  | [] => ([], none)
  | l :: rest =>
    match l.behavior with
    | .writable =>
      let step := apply_profile token rest
      (writeLoc token l :: step.1, step.2)
    | .openPermDenied d => (l :: rest, some (.permission l.path.pathString d))
    | .openOtherErr d => (l :: rest, some (.openFail l.path.pathString d))
    | .writeErr e => (l :: rest, some (.ioErr e))
    | .flushErr e => (writeLoc token l :: rest, some (.ioErr e))

/-! ## Read and format (`AmdEppMgr::read_profile`) -/

def warnMsg (p : EppPath) : String :=
  "Warning: Could not extract CPU number from path: " ++ p.pathString

/-- The `InvalidData` error built when a "cpu"-prefixed directory name has
a suffix that fails to parse (the embedded message abstracts the
`ParseIntError` display text). -/
def invalidCpuErr : IoError :=
  ⟨.invalidData, "Invalid CPU number in path: invalid digit found in string"⟩

/-- The collection loop of `read_profile`: per location, strip "cpu" from
the grandparent directory name (no prefix: warn and skip), parse the
remainder as `u32` (failure: hard `InvalidData` error), read and trim the
file content, and record the `(CoreLabel, RawValue)` pair.  Returns the
pairs in location order together with the emitted warnings. -/
def collectData : List LocState → Except IoError (List (String × String) × List String)
  | [] => .ok ([], [])
  | l :: rest =>
    match stripCpu l.path.cpuDir with
    | none =>
      match collectData rest with
      | .error e => .error e
      | .ok (ps, ws) => .ok (ps, warnMsg l.path :: ws)
    | some numStr =>
      match parseU32 numStr with
      | none => .error invalidCpuErr
      | some n =>
        match l.readErr with
        | some e => .error e
        | none =>
          match collectData rest with
          | .error e => .error e
          | .ok (ps, ws) => .ok ((cpuLabel n, strTrim l.content) :: ps, ws)

/-- `cpu_data.sort_by(|a, b| a.0.cmp(&b.0))` order: byte-wise order on the
label component. -/
abbrev pairRel (a b : String × String) : Prop := charListLe a.1.data b.1.data = true

/-- The formatting tail of `read_profile`: `max_label_len` is the maximum
LABEL length (`label.len()`), each `"label: value"` entry is padded to that
width, entries are grouped three per row and joined with two spaces. -/
def renderLines (cpu_data : List (String × String)) : List String :=
  let max_label_len := (cpu_data.map (fun p => p.1.length)).foldr Nat.max 0
  (chunks3 cpu_data).map (fun chunk =>
    joinSep "  " (chunk.map (fun p => padRight (p.1 ++ ": " ++ p.2) max_label_len)))

/-- Embedding of `AmdEppMgr::read_profile`: collect, sort by label, render.
Returns the printed lines together with the warnings, or the first error. -/
def read_profile (locs : List LocState) : Except IoError (List String × List String) :=
  match collectData locs with
  | .error e => .error e
  | .ok (pairs, warns) =>
    .ok (renderLines (List.insertionSort pairRel pairs), warns)


/-- A location whose path has the shape discovery guarantees and whose
file is readable: the read loop handles it without warning or error. -/
def wellFormedLoc (l : LocState) : Prop :=
  (∃ s n, stripCpu l.path.cpuDir = some s ∧ parseU32 s = some n) ∧ l.readErr = none

/-- A location the read loop gets past without a hard error (it is either
warned about and skipped, or fully processed). -/
def cleanLoc (l : LocState) : Prop := stripCpu l.path.cpuDir = none ∨ wellFormedLoc l

/-- The final state of the first failing location in `apply_profile`: a
flush failure happens after the write succeeded, every other failure
leaves the content untouched. -/
def badResult (token : String) (l : LocState) : LocState :=
  match l.behavior with
  | .flushErr _ => writeLoc token l
  | _ => l

/-- The error `apply_profile` reports for its first failing location. -/
def badErr (l : LocState) : ApplyErr :=
  match l.behavior with
  | .openPermDenied d => .permission l.path.pathString d
  | .openOtherErr d => .openFail l.path.pathString d
  | .writeErr e => .ioErr e
  | .flushErr e => .ioErr e
  | .writable => .ioErr ⟨.other, ""⟩

/-! ## Helper lemmas: lexicographic comparison -/

theorem charEqOfNotLt {a b : Char} (h1 : ¬ a.toNat < b.toNat) (h2 : ¬ b.toNat < a.toNat) :
    a = b := by
  have h : a.toNat = b.toNat := by omega
  exact Char.ext (UInt32.ext h)

theorem charListLe_cons (a b : Char) (as bs : List Char) :
    charListLe (a :: as) (b :: bs) =
      if a.toNat < b.toNat then true
      else if b.toNat < a.toNat then false
      else charListLe as bs := rfl

theorem charListLe_refl : ∀ cs : List Char, charListLe cs cs = true := by
  intro cs
  induction cs with
  | nil => rfl
  | cons a as ih => simp [charListLe_cons, Nat.lt_irrefl, ih]

theorem charListLe_trans (as : List Char) : ∀ bs cs : List Char,
    charListLe as bs = true → charListLe bs cs = true → charListLe as cs = true := by
  induction as with
  | nil => intro bs cs _ _; rfl
  | cons a as ih =>
    intro bs cs h1 h2
    cases bs with
    | nil => exact absurd h1 (by simp [charListLe])
    | cons b bs =>
      cases cs with
      | nil => exact absurd h2 (by simp [charListLe])
      | cons c cs =>
        rw [charListLe_cons] at h1 h2 ⊢
        by_cases hab : a.toNat < b.toNat
        · by_cases hbc : b.toNat < c.toNat
          · rw [if_pos (by omega)]
          · rw [if_neg hbc] at h2
            by_cases hcb : c.toNat < b.toNat
            · rw [if_pos hcb] at h2; exact absurd h2 (by simp)
            · rw [if_pos (by omega)]
        · rw [if_neg hab] at h1
          by_cases hba : b.toNat < a.toNat
          · rw [if_pos hba] at h1; exact absurd h1 (by simp)
          · rw [if_neg hba] at h1
            by_cases hbc : b.toNat < c.toNat
            · rw [if_pos (by omega)]
            · rw [if_neg hbc] at h2
              by_cases hcb : c.toNat < b.toNat
              · rw [if_pos hcb] at h2; exact absurd h2 (by simp)
              · rw [if_neg hcb] at h2
                rw [if_neg (by omega), if_neg (by omega)]
                exact ih bs cs h1 h2

theorem charListLe_total (as : List Char) : ∀ bs : List Char,
    charListLe as bs = true ∨ charListLe bs as = true := by
  induction as with
  | nil => intro bs; left; rfl
  | cons a as ih =>
    intro bs
    cases bs with
    | nil => right; rfl
    | cons b bs =>
      rw [charListLe_cons, charListLe_cons]
      by_cases hab : a.toNat < b.toNat
      · left; rw [if_pos hab]
      · by_cases hba : b.toNat < a.toNat
        · right; rw [if_pos hba]
        · rw [if_neg hab, if_neg hba, if_neg hba, if_neg hab]
          exact ih bs

theorem charListLe_append_left (p : List Char) : ∀ xs ys : List Char,
    charListLe (p ++ xs) (p ++ ys) = charListLe xs ys := by
  induction p with
  | nil => intro xs ys; rfl
  | cons a p ih =>
    intro xs ys
    simp only [List.cons_append, charListLe_cons, Nat.lt_irrefl, if_false, ih]

theorem charListLe_append_sep (u : List Char) (xs : List Char) : ∀ ys : List Char,
    (∀ w, ys = xs ++ w → w ≠ [] → ∃ c cs, w = c :: cs ∧ 47 < c.toNat) →
    (∀ w, xs = ys ++ w → w ≠ [] → ∃ c cs, w = c :: cs ∧ 47 < c.toNat) →
    charListLe (xs ++ ('/' :: u)) (ys ++ ('/' :: u)) = charListLe xs ys := by
  induction xs with
  | nil =>
    intro ys h1 _
    cases ys with
    | nil => simp [charListLe_refl]
    | cons b bs =>
      obtain ⟨c, cs, hw, hc⟩ := h1 (b :: bs) rfl (by simp)
      have hb : b = c := by injection hw
      rw [List.nil_append, List.cons_append, charListLe_cons]
      rw [if_pos (by rw [hb]; show ('/' : Char).toNat < c.toNat; simpa using hc)]
      simp [charListLe]
  | cons a as ih =>
    intro ys h1 h2
    cases ys with
    | nil =>
      obtain ⟨c, cs, hw, hc⟩ := h2 (a :: as) rfl (by simp)
      have ha : a = c := by injection hw
      rw [List.cons_append, List.nil_append, charListLe_cons]
      have h47 : ('/' : Char).toNat = 47 := by decide
      rw [if_neg (by rw [ha, h47]; omega), if_pos (by rw [ha, h47]; omega)]
      simp [charListLe]
    | cons b bs =>
      rw [List.cons_append, List.cons_append, charListLe_cons, charListLe_cons]
      by_cases hab : a.toNat < b.toNat
      · rw [if_pos hab, if_pos hab]
      · by_cases hba : b.toNat < a.toNat
        · rw [if_neg hab, if_pos hba, if_neg hab, if_pos hba]
        · have hEq : a = b := charEqOfNotLt hab hba
          rw [if_neg hab, if_neg hba, if_neg hab, if_neg hba]
          apply ih bs
          · intro w hw hne
            apply h1 w ?_ hne
            rw [hEq, hw]; rfl
          · intro w hw hne
            apply h2 w ?_ hne
            rw [hEq, hw]; rfl

theorem containsSub_length {hay needle : List Char} (h : containsSub hay needle) :
    needle.length ≤ hay.length := by
  obtain ⟨a, b, rfl⟩ := h
  simp only [List.length_append]
  omega

/-! ## Helper lemmas: parsing and name shape -/

theorem dropPlus_cons (c : Char) (rest : List Char) :
    dropPlus (c :: rest) = if c = '+' then rest else c :: rest := rfl

theorem stripCpu_data_cons3 {c1 c2 c3 : Char} {rest : List Char} {n : String}
    (hd : n.data = c1 :: c2 :: c3 :: rest) :
    stripCpu n = if c1 = 'c' ∧ c2 = 'p' ∧ c3 = 'u' then some (String.mk rest) else none := by
  unfold stripCpu
  rw [hd]

theorem stripCpu_eq_some {n t : String} :
    stripCpu n = some t ↔ n.data = 'c' :: 'p' :: 'u' :: t.data := by
  cases hd : n.data with
  | nil =>
    unfold stripCpu
    rw [hd]
    simp
  | cons c1 r1 =>
    cases r1 with
    | nil =>
      unfold stripCpu
      rw [hd]
      simp
    | cons c2 r2 =>
      cases r2 with
      | nil =>
        unfold stripCpu
        rw [hd]
        simp
      | cons c3 rest =>
        rw [stripCpu_data_cons3 hd]
        by_cases hc : c1 = 'c' ∧ c2 = 'p' ∧ c3 = 'u'
        · obtain ⟨rfl, rfl, rfl⟩ := hc
          rw [if_pos ⟨rfl, rfl, rfl⟩]
          constructor
          · intro h
            injection h with h2
            rw [← h2]
          · intro h
            have h4 : rest = t.data := by
              injection h with e1 h2
              injection h2 with e2 h3
              injection h3 with e3 h4
            rw [h4]
        · rw [if_neg hc]
          constructor
          · intro h; cases h
          · intro h
            exfalso
            apply hc
            injection h with e1 h2
            injection h2 with e2 h3
            injection h3 with e3 h4
            exact ⟨e1, e2, e3⟩

theorem parseU32_isSome_iff {s : String} : (parseU32 s).isSome = true ↔
    ∃ body : List Char, (s.data = body ∨ s.data = '+' :: body) ∧ body ≠ [] ∧
      body.all isDigitChar = true ∧ digitsToNat body < 4294967296 := by
  unfold parseU32
  constructor
  · intro h
    simp only at h
    split at h
    · simp at h
    · rename_i hne
      split at h
      · rename_i hdig
        split at h
        · rename_i hlt
          refine ⟨dropPlus s.data, ?_, hne, hdig, hlt⟩
          cases hd : s.data with
          | nil => left; rfl
          | cons c rest =>
            rw [dropPlus_cons]
            by_cases hc : c = '+'
            · right; rw [if_pos hc, hc]
            · left; rw [if_neg hc]
        · simp at h
      · simp at h
  · rintro ⟨body, hshape, hne, hdig, hlt⟩
    have hdrop : dropPlus s.data = body := by
      rcases hshape with h | h
      · rw [h]
        cases hb : body with
        | nil => rfl
        | cons c rest =>
          rw [dropPlus_cons]
          have hc : c ≠ '+' := by
            intro hcp
            have hcd : isDigitChar c = true := by
              rw [hb] at hdig
              exact List.all_eq_true.mp hdig c (by simp)
            rw [hcp] at hcd
            exact absurd hcd (by decide)
          rw [if_neg hc]
      · rw [h, dropPlus_cons, if_pos rfl]
    simp only [hdrop]
    rw [if_neg hne, if_pos hdig, if_pos hlt]
    rfl

/-- The discovery filter's acceptance condition for a directory name, in
explicit form: the literal "cpu" followed by Rust `u32`-parse input (an
optional '+' sign, then one or more decimal digits, value below 2^32). -/
def validCpuName (n : String) : Prop :=
  ∃ body : List Char,
    (n.data = 'c' :: 'p' :: 'u' :: body ∨ n.data = 'c' :: 'p' :: 'u' :: '+' :: body) ∧
    body ≠ [] ∧ body.all isDigitChar = true ∧ digitsToNat body < 4294967296

/-- The filter condition as the code phrases it. -/
def goodName (n : String) : Prop :=
  ∃ s, stripCpu n = some s ∧ (parseU32 s).isSome = true

theorem goodName_iff_validCpuName {n : String} : goodName n ↔ validCpuName n := by
  constructor
  · rintro ⟨s, hs, hp⟩
    obtain ⟨body, hshape, hne, hdig, hlt⟩ := parseU32_isSome_iff.mp hp
    have hn := stripCpu_eq_some.mp hs
    rcases hshape with h | h
    · exact ⟨body, Or.inl (by rw [hn, h]), hne, hdig, hlt⟩
    · exact ⟨body, Or.inr (by rw [hn, h]), hne, hdig, hlt⟩
  · rintro ⟨body, hshape, hne, hdig, hlt⟩
    rcases hshape with h | h
    · refine ⟨String.mk body, stripCpu_eq_some.mpr (by rw [h]), ?_⟩
      exact parseU32_isSome_iff.mpr ⟨body, Or.inl rfl, hne, hdig, hlt⟩
    · refine ⟨String.mk ('+' :: body), stripCpu_eq_some.mpr (by rw [h]), ?_⟩
      exact parseU32_isSome_iff.mpr ⟨body, Or.inr rfl, hne, hdig, hlt⟩

theorem isDigitChar_gt47 {c : Char} (h : isDigitChar c = true) : 47 < c.toNat := by
  simp only [isDigitChar, Bool.and_eq_true, decide_eq_true_eq] at h
  omega

theorem validCpuName_ext {n1 n2 : String} (h1 : validCpuName n1) (h2 : validCpuName n2)
    {w : List Char} (hw : n2.data = n1.data ++ w) (hne : w ≠ []) :
    ∃ c cs, w = c :: cs ∧ 47 < c.toNat := by
  obtain ⟨b1, hs1, hne1, hd1, hlt1⟩ := h1
  obtain ⟨b2, hs2, hne2, hd2, hlt2⟩ := h2
  cases w with
  | nil => exact absurd rfl hne
  | cons c cs =>
    refine ⟨c, cs, rfl, ?_⟩
    -- reduce to: the suffix of n2 after "cpu" equals the one of n1 followed by c :: cs
    have key : ∀ v1 v2 : List Char, n1.data = 'c' :: 'p' :: 'u' :: v1 →
        n2.data = 'c' :: 'p' :: 'u' :: v2 → v2 = v1 ++ c :: cs := by
      intro v1 v2 e1 e2
      rw [e1, e2] at hw
      simp only [List.cons_append, List.cons.injEq] at hw
      exact hw.2.2.2
    have hdig : ∀ b : List Char, b.all isDigitChar = true → c ∈ b → 47 < c.toNat := by
      intro b hb hc
      exact isDigitChar_gt47 (List.all_eq_true.mp hb c hc)
    rcases hs2 with e2 | e2
    · -- suffix of n2 is b2, all digits
      rcases hs1 with e1 | e1
      · have hv := key b1 b2 e1 e2
        exact hdig b2 hd2 (by rw [hv]; exact List.mem_append_right _ (by simp))
      · have hv := key ('+' :: b1) b2 e1 e2
        exact hdig b2 hd2 (by rw [hv]; exact List.mem_append_right _ (by simp))
    · -- suffix of n2 is '+' :: b2
      rcases hs1 with e1 | e1
      · -- suffix of n1 is b1 (nonempty digits); its head would have to be '+'
        have hv := key b1 ('+' :: b2) e1 e2
        cases hb1 : b1 with
        | nil => exact absurd hb1 hne1
        | cons a t =>
          rw [hb1, List.cons_append] at hv
          have ha : a = '+' := by
            simp only [List.cons.injEq] at hv
            exact hv.1.symm
          have had : isDigitChar a = true :=
            List.all_eq_true.mp hd1 a (by rw [hb1]; simp)
          rw [ha] at had
          exact absurd had (by decide)
      · have hv := key ('+' :: b1) ('+' :: b2) e1 e2
        rw [List.cons_append] at hv
        have hb : b2 = b1 ++ c :: cs := by
          simp only [List.cons.injEq] at hv
          exact hv.2
        exact hdig b2 hd2 (by rw [hb]; exact List.mem_append_right _ (by simp))

theorem pathString_data (p : EppPath) :
    p.pathString.data = basePath.data ++ (p.cpuDir.data ++ ('/' :: eppRelPath.data)) := by
  show (basePath ++ p.cpuDir ++ "/" ++ eppRelPath).data = _
  rw [String.data_append, String.data_append, String.data_append]
  rw [List.append_assoc, List.append_assoc]
  rfl

theorem pathRel_iff_pathString {p q : EppPath} (hp : goodName p.cpuDir) (hq : goodName q.cpuDir) :
    charListLe p.pathString.data q.pathString.data = charListLe p.cpuDir.data q.cpuDir.data := by
  rw [pathString_data, pathString_data, charListLe_append_left]
  apply charListLe_append_sep
  · intro w hw hne
    exact validCpuName_ext (goodName_iff_validCpuName.mp hp) (goodName_iff_validCpuName.mp hq)
      hw hne
  · intro w hw hne
    exact validCpuName_ext (goodName_iff_validCpuName.mp hq) (goodName_iff_validCpuName.mp hp)
      hw hne

/-! ## Helper lemmas: discovery -/

theorem mem_qualify {entries : List DirEntry} {p : EppPath} :
    p ∈ qualify entries ↔
      ∃ e ∈ entries, e.isDir = true ∧ goodName e.name ∧ e.hasEppFile = true ∧ p = ⟨e.name⟩ := by
  unfold qualify
  rw [List.mem_filterMap]
  constructor
  · rintro ⟨e, he, hf⟩
    refine ⟨e, he, ?_⟩
    by_cases hdir : e.isDir = true
    · rw [if_pos hdir] at hf
      cases hsc : stripCpu e.name with
      | none =>
        simp only [hsc] at hf
        exact nomatch hf
      | some s =>
        simp only [hsc] at hf
        by_cases hps : (parseU32 s).isSome = true
        · rw [if_pos hps] at hf
          by_cases hepp : e.hasEppFile = true
          · rw [if_pos hepp] at hf
            injection hf with hf2
            exact ⟨hdir, ⟨s, hsc, hps⟩, hepp, hf2.symm⟩
          · rw [if_neg hepp] at hf; cases hf
        · rw [if_neg hps] at hf; cases hf
    · rw [if_neg hdir] at hf; cases hf
  · rintro ⟨e, he, hdir, ⟨s, hsc, hps⟩, hepp, rfl⟩
    refine ⟨e, he, ?_⟩
    rw [if_pos hdir]
    simp only [hsc]
    rw [if_pos hps, if_pos hepp]

theorem new_ok_sorted {entries : List DirEntry} {ps : List EppPath}
    (h : AmdEppMgr.new (.ok entries) = .ok ps) :
    ps = List.insertionSort pathRel (qualify entries) := by
  simp only [AmdEppMgr.new] at h
  split at h
  · cases h
  · injection h with h2
    exact h2.symm

/-! ## Helper lemmas: sorting -/

theorem orderedInsert_congr (r s : α → α → Prop) [DecidableRel r] [DecidableRel s]
    (a : α) : ∀ l : List α, (∀ b ∈ l, (r a b ↔ s a b)) →
    List.orderedInsert r a l = List.orderedInsert s a l := by
  intro l
  induction l with
  | nil => intro _; rfl
  | cons x xs ih =>
    intro h
    simp only [List.orderedInsert]
    by_cases hr : r a x
    · rw [if_pos hr, if_pos ((h x (by simp)).mp hr)]
    · rw [if_neg hr, if_neg (fun hs2 => hr ((h x (by simp)).mpr hs2)),
        ih (fun b hb => h b (by simp [hb]))]

theorem insertionSort_congr (r s : α → α → Prop) [DecidableRel r] [DecidableRel s] :
    ∀ l : List α, (∀ a ∈ l, ∀ b ∈ l, (r a b ↔ s a b)) →
    List.insertionSort r l = List.insertionSort s l := by
  intro l
  induction l with
  | nil => intro _; rfl
  | cons x xs ih =>
    intro h
    simp only [List.insertionSort]
    rw [ih (fun a ha b hb => h a (by simp [ha]) b (by simp [hb]))]
    apply orderedInsert_congr
    intro b hb
    have hbmem : b ∈ xs := ((List.perm_insertionSort s xs).mem_iff).mp hb
    exact h x (by simp) b (by simp [hbmem])


/-! ## Helper lemmas: apply and read -/

theorem apply_all_writable (t : String) : ∀ locs : List LocState,
    (∀ l ∈ locs, l.behavior = .writable) →
    apply_profile t locs = (locs.map (writeLoc t), none) := by
  intro locs
  induction locs with
  | nil => intro _; rfl
  | cons l rest ih =>
    intro h
    have hl : l.behavior = .writable := h l (by simp)
    simp only [apply_profile, hl, ih (fun x hx => h x (by simp [hx])), List.map]

theorem strTrim_token (v : EppValue) : strTrim (v.as_str ++ "\n") = v.as_str := by
  cases v <;> decide

theorem collectData_skip_single (l : LocState) (h : stripCpu l.path.cpuDir = none) :
    collectData [l] = .ok ([], [warnMsg l.path]) := by
  simp only [collectData, h]

theorem collectData_invalid_single (l : LocState) (s : String)
    (hs : stripCpu l.path.cpuDir = some s) (hp : parseU32 s = none) :
    collectData [l] = .error invalidCpuErr := by
  simp only [collectData, hs, hp]

theorem collectData_append : ∀ xs ys : List LocState,
    collectData (xs ++ ys) =
      (match collectData xs, collectData ys with
       | .error e, _ => .error e
       | .ok _, .error e => .error e
       | .ok (ps1, ws1), .ok (ps2, ws2) => .ok (ps1 ++ ps2, ws1 ++ ws2)) := by
  intro xs ys
  induction xs with
  | nil =>
    simp only [List.nil_append, collectData]
    cases h : collectData ys with
    | error e => rfl
    | ok pw => cases pw with | mk ps ws => rfl
  | cons l xs ih =>
    rw [List.cons_append]
    cases hsc : stripCpu l.path.cpuDir with
    | none =>
      simp only [collectData, hsc, ih]
      cases h1 : collectData xs with
      | error e => rfl
      | ok pw1 =>
        cases pw1 with
        | mk ps1 ws1 =>
          cases h2 : collectData ys with
          | error e => rfl
          | ok pw2 => cases pw2 with | mk ps2 ws2 => rfl
    | some s =>
      cases hp : parseU32 s with
      | none => simp only [collectData, hsc, hp]
      | some n =>
        cases hre : l.readErr with
        | some e => simp only [collectData, hsc, hp, hre]
        | none =>
          simp only [collectData, hsc, hp, hre, ih]
          cases h1 : collectData xs with
          | error e => rfl
          | ok pw1 =>
            cases pw1 with
            | mk ps1 ws1 =>
              cases h2 : collectData ys with
              | error e => rfl
              | ok pw2 => cases pw2 with | mk ps2 ws2 => simp

theorem collectData_clean : ∀ locs : List LocState, (∀ l ∈ locs, cleanLoc l) →
    ∃ ps ws, collectData locs = .ok (ps, ws) ∧
      ∀ pr ∈ ps, ∃ l ∈ locs, pr.2 = strTrim l.content := by
  intro locs
  induction locs with
  | nil => intro _; exact ⟨[], [], rfl, by simp⟩
  | cons l rest ih =>
    intro h
    obtain ⟨ps, ws, hok, hval⟩ := ih (fun x hx => h x (by simp [hx]))
    rcases h l (by simp) with hskip | ⟨⟨s, n, hs, hp⟩, hre⟩
    · refine ⟨ps, warnMsg l.path :: ws, ?_, ?_⟩
      · simp only [collectData, hskip, hok]
      · intro pr hpr
        obtain ⟨x, hx, hv⟩ := hval pr hpr
        exact ⟨x, by simp [hx], hv⟩
    · refine ⟨(cpuLabel n, strTrim l.content) :: ps, ws, ?_, ?_⟩
      · simp only [collectData, hs, hp, hre, hok]
      · intro pr hpr
        rcases List.mem_cons.mp hpr with rfl | hpr2
        · exact ⟨l, by simp, rfl⟩
        · obtain ⟨x, hx, hv⟩ := hval pr hpr2
          exact ⟨x, by simp [hx], hv⟩

theorem collectData_all_skip : ∀ locs : List LocState,
    (∀ l ∈ locs, stripCpu l.path.cpuDir = none) →
    collectData locs = .ok ([], locs.map (fun l => warnMsg l.path)) := by
  intro locs
  induction locs with
  | nil => intro _; rfl
  | cons l rest ih =>
    intro h
    simp only [collectData, h l (by simp), ih (fun x hx => h x (by simp [hx])), List.map]

/-! ## Helper lemmas: labels -/

set_option maxRecDepth 10000 in
theorem cpuLabel_ble : ∀ n m : Fin 100,
    charListLe (cpuLabel n.1).data (cpuLabel m.1).data = Nat.ble n.1 m.1 := by
  decide

theorem cpuLabel_le_iff {n m : Nat} (hn : n < 100) (hm : m < 100) :
    (charListLe (cpuLabel n).data (cpuLabel m).data = true) ↔ n ≤ m := by
  have h := cpuLabel_ble ⟨n, hn⟩ ⟨m, hm⟩
  simp only at h
  rw [h]
  simp [Nat.ble_eq]


/-! ## Claim theorems -/

/-- C9: the level-to-profile mapping sends 0, 1, 2, 3 bijectively and in
order to Performance, BalancePerformance, BalancePower, Power, and every
level 4 or above is rejected by the level branch of `run_app` with an
invalid-argument error rather than being clamped. -/
theorem from_level_bijection_and_rejection (l : Nat) (hl : 4 ≤ l) :
    (EppValue.from_level 0 = some .performance ∧
     EppValue.from_level 1 = some .balancePerformance ∧
     EppValue.from_level 2 = some .balancePower ∧
     EppValue.from_level 3 = some .power) ∧
    (∀ v : EppValue, ∃ k, k < 4 ∧ EppValue.from_level k = some v) ∧
    EppValue.from_level l = none ∧
    levelAction l = .error ("Invalid profile level: " ++ String.mk (natRepr l) ++
      ". Must be between 0 and 3.") := by
  obtain ⟨m, rfl⟩ : ∃ m, l = m + 4 := ⟨l - 4, by omega⟩
  refine ⟨⟨rfl, rfl, rfl, rfl⟩, ?_, rfl, rfl⟩
  intro v
  cases v with
  | performance => exact ⟨0, by omega, rfl⟩
  | balancePerformance => exact ⟨1, by omega, rfl⟩
  | balancePower => exact ⟨2, by omega, rfl⟩
  | power => exact ⟨3, by omega, rfl⟩

/-- Witness for the C9 theorem, at level 4. -/
theorem from_level_bijection_and_rejection_witness :
    EppValue.from_level 4 = none ∧
    levelAction 4 = .error ("Invalid profile level: " ++ String.mk (natRepr 4) ++
      ". Must be between 0 and 3.") :=
  ⟨(from_level_bijection_and_rejection 4 (by decide)).2.2.1,
   (from_level_bijection_and_rejection 4 (by decide)).2.2.2⟩

/-- C1: evaluation of the read/format pipeline on the §8 formatting
scenario.  The code computes `max_label_len` over the LABELS only (all of
width 5), so no entry is ever padded and the columns are not aligned; the
lines the claim prescribes (each entry padded to the maximum full-entry
width, 26) differ.  The code's own comment says "Pad each entry to
max_overall_entry_len" while the code pads to `max_label_len`. -/
theorem read_format_pads_to_label_width_only :
    read_profile
      [⟨⟨"cpu0"⟩, "performance\n", .writable, none⟩,
       ⟨⟨"cpu1"⟩, "power\n", .writable, none⟩,
       ⟨⟨"cpu2"⟩, "balance_power\n", .writable, none⟩,
       ⟨⟨"cpu3"⟩, "balance_performance\n", .writable, none⟩] =
      .ok (["CPU00: performance  CPU01: power  CPU02: balance_power",
            "CPU03: balance_performance"], []) ∧
    ["CPU00: performance  CPU01: power  CPU02: balance_power",
     "CPU03: balance_performance"] ≠
      ["CPU00: performance          CPU01: power                CPU02: balance_power      ",
       "CPU03: balance_performance"] := by
  constructor
  · rfl
  · decide

/-- Rust's stable `sort_by` on the collected pairs, keyed on the padded
CoreLabel (byte-wise string comparison, as `String::cmp` does). -/
abbrev labelRel (a b : Nat × String) : Prop :=
  charListLe (cpuLabel a.1).data (cpuLabel b.1).data = true

/-- The same sort keyed on the numeric core index. -/
abbrev idxRel (a b : Nat × String) : Prop := a.1 ≤ b.1

/-- C2 (amended): sorting the collected pairs by the padded CoreLabel
agrees with sorting them by numeric core index PROVIDED every core index
is below 100; labels of three or more digits break the fixed-width-padding
argument (see the counterexample at indices 99 and 100). -/
theorem label_sort_eq_index_sort_below_100 (l : List (Nat × String))
    (h : ∀ p ∈ l, p.1 < 100) :
    List.insertionSort labelRel l = List.insertionSort idxRel l :=
  insertionSort_congr labelRel idxRel l
    (fun a ha b hb => cpuLabel_le_iff (h a ha) (h b hb))

/-- Witness for the C2 theorem on a small in-range list. -/
theorem label_sort_eq_index_sort_below_100_witness :
    List.insertionSort labelRel [(10, "power"), (2, "performance")] =
      List.insertionSort idxRel [(10, "power"), (2, "performance")] :=
  label_sort_eq_index_sort_below_100 [(10, "power"), (2, "performance")] (by decide)

/-- C2 counterexample: with core indices 99 and 100 the padded labels are
"CPU99" and "CPU100", and "CPU100" sorts before "CPU99" lexicographically,
the opposite of the numeric order — the claimed equivalence fails. -/
theorem label_sort_ne_index_sort_at_99_100 :
    List.insertionSort labelRel [(99, "power"), (100, "power")] ≠
      List.insertionSort idxRel [(99, "power"), (100, "power")] := by
  decide

/-- C4 (amended): discovery records a location exactly for the immediate
subdirectories whose name is "cpu" followed by a string Rust's u32 parser
accepts — an OPTIONAL LEADING '+' and then one or more decimal digits with
value below 2^32 — and for which the relative control path exists; every
such directory is included. -/
theorem discovery_membership (entries : List DirEntry) (ps : List EppPath)
    (h : AmdEppMgr.new (.ok entries) = .ok ps) (p : EppPath) :
    p ∈ ps ↔ ∃ e ∈ entries, e.isDir = true ∧ e.hasEppFile = true ∧
      validCpuName e.name ∧ p = ⟨e.name⟩ := by
  rw [new_ok_sorted h]
  rw [(List.perm_insertionSort pathRel (qualify entries)).mem_iff]
  rw [mem_qualify]
  constructor
  · rintro ⟨e, he, hdir, hgood, hepp, rfl⟩
    exact ⟨e, he, hdir, hepp, goodName_iff_validCpuName.mp hgood, rfl⟩
  · rintro ⟨e, he, hdir, hepp, hvalid, rfl⟩
    exact ⟨e, he, hdir, goodName_iff_validCpuName.mpr hvalid, hepp, rfl⟩

/-- Witness for the C4 theorem on a one-entry directory. -/
theorem discovery_membership_witness :
    (⟨"cpu0"⟩ : EppPath) ∈ [(⟨"cpu0"⟩ : EppPath)] ↔
      ∃ e ∈ [(⟨"cpu0", true, true⟩ : DirEntry)], e.isDir = true ∧ e.hasEppFile = true ∧
        validCpuName e.name ∧ (⟨"cpu0"⟩ : EppPath) = ⟨e.name⟩ :=
  discovery_membership [⟨"cpu0", true, true⟩] [⟨"cpu0"⟩] (by rfl) ⟨"cpu0"⟩

/-- C4 counterexample: the directory name "cpu+3" — whose suffix "+3"
starts with a sign character, so it is not "cpu" followed by decimal
digits — is nonetheless accepted and recorded by discovery, because Rust
u32 parsing accepts a single leading '+'. -/
theorem discovery_accepts_plus_sign_name :
    AmdEppMgr.new (.ok [⟨"cpu+3", true, true⟩]) = .ok [⟨"cpu+3"⟩] ∧
    stripCpu "cpu+3" = some "+3" ∧ isDigitChar '+' = false := by
  refine ⟨rfl, rfl, by decide⟩

/-- C8: the three discovery outcomes are disjoint and exhaustive: an
enumeration failure propagates that error unchanged; an enumerable base
directory with zero qualifying entries yields the dedicated NotFound
error; otherwise discovery succeeds with the sorted list (so the NotFound
error arises exactly in the zero-qualifying case). -/
theorem discovery_notfound_vs_ioerror :
    (∀ e, AmdEppMgr.new (.error e) = .error e) ∧
    (∀ entries, qualify entries = [] → AmdEppMgr.new (.ok entries) = .error notFoundErr) ∧
    (∀ entries, qualify entries ≠ [] →
      AmdEppMgr.new (.ok entries) = .ok (List.insertionSort pathRel (qualify entries))) ∧
    notFoundErr.kind = .notFound := by
  refine ⟨fun e => rfl, ?_, ?_, rfl⟩
  · intro entries hq
    simp only [AmdEppMgr.new]
    rw [hq]
    rfl
  · intro entries hq
    simp only [AmdEppMgr.new]
    rw [if_neg]
    intro hz
    apply hq
    have hperm := List.perm_insertionSort pathRel (qualify entries)
    rw [hz] at hperm
    exact (hperm.symm).eq_nil

/-- Witness for the C8 theorem: an unreadable base directory propagates the
error; a base directory whose sole entry does not qualify yields NotFound;
a qualifying entry yields the sorted singleton. -/
theorem discovery_notfound_vs_ioerror_witness :
    AmdEppMgr.new (.error ⟨.permissionDenied, "Permission denied"⟩) =
      .error ⟨.permissionDenied, "Permission denied"⟩ ∧
    AmdEppMgr.new (.ok [⟨"cpufreq", true, false⟩]) = .error notFoundErr ∧
    AmdEppMgr.new (.ok [⟨"cpu0", true, true⟩]) =
      .ok (List.insertionSort pathRel (qualify [⟨"cpu0", true, true⟩])) :=
  ⟨discovery_notfound_vs_ioerror.1 ⟨.permissionDenied, "Permission denied"⟩,
   discovery_notfound_vs_ioerror.2.1 [⟨"cpufreq", true, false⟩] (by rfl),
   discovery_notfound_vs_ioerror.2.2.1 [⟨"cpu0", true, true⟩] (by decide)⟩


/-- C7: for every directory-enumeration result, the discovered location
list is sorted lexicographically on the full path string, and on a
directory containing cpu2 and cpu10 the cpu10 entry precedes the cpu2
entry — path order, deliberately not numeric core-index order. -/
theorem discovery_sorted_by_path_string (rd : Except IoError (List DirEntry))
    (ps : List EppPath) (h : AmdEppMgr.new rd = .ok ps) :
    ps.Pairwise (fun p q => charListLe p.pathString.data q.pathString.data = true) ∧
    AmdEppMgr.new (.ok [⟨"cpu2", true, true⟩, ⟨"cpu10", true, true⟩]) =
      .ok [⟨"cpu10"⟩, ⟨"cpu2"⟩] := by
  refine ⟨?_, rfl⟩
  cases rd with
  | error e => simp [AmdEppMgr.new] at h
  | ok entries =>
    have hps := new_ok_sorted h
    subst hps
    haveI : IsTotal EppPath pathRel := ⟨fun a b => charListLe_total _ _⟩
    haveI : IsTrans EppPath pathRel := ⟨fun a b c h1 h2 => charListLe_trans _ _ _ h1 h2⟩
    have hsorted : List.Sorted pathRel (List.insertionSort pathRel (qualify entries)) :=
      List.sorted_insertionSort pathRel (qualify entries)
    apply List.Pairwise.imp_of_mem ?_ hsorted
    intro p q hp hq hrel
    have hpg : goodName p.cpuDir := by
      have hpq := (List.perm_insertionSort pathRel (qualify entries)).mem_iff.mp hp
      obtain ⟨e, he, hdir, hgood, hepp, rfl⟩ := mem_qualify.mp hpq
      exact hgood
    have hqg : goodName q.cpuDir := by
      have hqq := (List.perm_insertionSort pathRel (qualify entries)).mem_iff.mp hq
      obtain ⟨e, he, hdir, hgood, hepp, rfl⟩ := mem_qualify.mp hqq
      exact hgood
    rw [pathRel_iff_pathString hpg hqg]
    exact hrel

/-- Witness for the C7 theorem on the cpu2/cpu10 directory. -/
theorem discovery_sorted_by_path_string_witness :
    ([⟨"cpu10"⟩, ⟨"cpu2"⟩] : List EppPath).Pairwise
      (fun p q => charListLe p.pathString.data q.pathString.data = true) :=
  (discovery_sorted_by_path_string (.ok [⟨"cpu2", true, true⟩, ⟨"cpu10", true, true⟩])
    [⟨"cpu10"⟩, ⟨"cpu2"⟩] (by rfl)).1

/-- C10: when every location is skipped by the read path's non-fatal
path-pattern warning, the read operation still succeeds and emits an empty
report with zero output lines (one warning per location). -/
theorem read_all_skipped_empty_report (locs : List LocState)
    (h : ∀ l ∈ locs, stripCpu l.path.cpuDir = none) :
    read_profile locs = .ok ([], locs.map (fun l => warnMsg l.path)) := by
  unfold read_profile
  rw [collectData_all_skip locs h]
  rfl

/-- Witness for the C10 theorem on two non-matching locations. -/
theorem read_all_skipped_empty_report_witness :
    read_profile
      [⟨⟨"node0"⟩, "performance\n", .writable, none⟩,
       ⟨⟨"microcode"⟩, "power\n", .writable, none⟩] =
      .ok ([], [warnMsg ⟨"node0"⟩, warnMsg ⟨"microcode"⟩]) :=
  read_all_skipped_empty_report
    [⟨⟨"node0"⟩, "performance\n", .writable, none⟩,
     ⟨⟨"microcode"⟩, "power\n", .writable, none⟩] (by decide)

theorem collectData_skip_mid (l : LocState) (hskip : stripCpu l.path.cpuDir = none)
    (pre post : List LocState) :
    (∀ e, collectData (pre ++ l :: post) = .error e ↔ collectData (pre ++ post) = .error e) ∧
    (∀ ps ws, collectData (pre ++ l :: post) = .ok (ps, ws) →
      ∃ ws2, collectData (pre ++ post) = .ok (ps, ws2) ∧ warnMsg l.path ∈ ws) := by
  have e1 : pre ++ l :: post = pre ++ ([l] ++ post) := by simp
  rw [e1, collectData_append pre ([l] ++ post), collectData_append [l] post,
    collectData_skip_single l hskip, collectData_append pre post]
  cases h1 : collectData pre with
  | error e =>
    exact ⟨fun e' => Iff.rfl, fun ps ws h => nomatch h⟩
  | ok pw1 =>
    cases pw1 with
    | mk ps1 ws1 =>
      cases h2 : collectData post with
      | error e =>
        exact ⟨fun e' => Iff.rfl, fun ps ws h => nomatch h⟩
      | ok pw2 =>
        cases pw2 with
        | mk ps2 ws2 =>
          constructor
          · intro e'
            exact ⟨(fun h => nomatch h), (fun h => nomatch h)⟩
          · intro ps ws h
            simp only [List.nil_append] at h
            injection h with h3
            injection h3 with h4 h5
            refine ⟨ws1 ++ ws2, by subst h4; rfl, ?_⟩
            rw [← h5]
            exact List.mem_append_right ws1 (by simp)

/-- C6: during the read pass, a location whose grandparent directory name
lacks the "cpu" prefix is skipped with a non-fatal warning and excluded
from the report (the printed lines equal those of the list without it),
whereas a location whose name has the "cpu" prefix but whose suffix fails
to parse makes the whole read fail hard with an InvalidData error. -/
theorem read_skip_vs_invalid_data :
    (∀ (l : LocState) (pre post : List LocState), stripCpu l.path.cpuDir = none →
      (read_profile (pre ++ l :: post)).map Prod.fst =
        (read_profile (pre ++ post)).map Prod.fst ∧
      ∀ out, read_profile (pre ++ l :: post) = .ok out → warnMsg l.path ∈ out.2) ∧
    (∀ (l : LocState) (s : String) (pre post : List LocState),
      stripCpu l.path.cpuDir = some s → parseU32 s = none →
      (∀ x ∈ pre, cleanLoc x) →
      read_profile (pre ++ l :: post) = .error invalidCpuErr ∧
      invalidCpuErr.kind = .invalidData) := by
  constructor
  · intro l pre post hskip
    obtain ⟨herr, hok⟩ := collectData_skip_mid l hskip pre post
    constructor
    · unfold read_profile
      cases hA : collectData (pre ++ l :: post) with
      | error e =>
        rw [(herr e).mp hA]
      | ok pw =>
        cases pw with
        | mk ps ws =>
          obtain ⟨ws2, hB, hmem⟩ := hok ps ws hA
          rw [hB]
          rfl
    · intro out hout
      unfold read_profile at hout
      cases hA : collectData (pre ++ l :: post) with
      | error e =>
        rw [hA] at hout
        exact nomatch hout
      | ok pw =>
        cases pw with
        | mk ps ws =>
          obtain ⟨ws2, hB, hmem⟩ := hok ps ws hA
          rw [hA] at hout
          injection hout with h2
          rw [← h2]
          exact hmem
  · intro l s pre post hs hp hclean
    refine ⟨?_, rfl⟩
    have e1 : pre ++ l :: post = pre ++ ([l] ++ post) := by simp
    unfold read_profile
    rw [e1, collectData_append pre ([l] ++ post), collectData_append [l] post,
      collectData_invalid_single l s hs hp]
    obtain ⟨ps, ws, hokpre, _⟩ := collectData_clean pre hclean
    rw [hokpre]

/-- Witness for the C6 theorem: a "foo" location is skipped with a warning
while a "cpux" location aborts the read with InvalidData. -/
theorem read_skip_vs_invalid_data_witness :
    ((read_profile [⟨⟨"foo"⟩, "x\n", .writable, none⟩]).map Prod.fst =
      (read_profile []).map Prod.fst) ∧
    read_profile [⟨⟨"cpux"⟩, "x\n", .writable, none⟩] = .error invalidCpuErr :=
  ⟨(read_skip_vs_invalid_data.1 ⟨⟨"foo"⟩, "x\n", .writable, none⟩ [] [] (by rfl)).1,
   (read_skip_vs_invalid_data.2 ⟨⟨"cpux"⟩, "x\n", .writable, none⟩ "x" [] [] (by rfl) (by rfl)
     (by simp)).1⟩


/-- C5: for profile values A and B on writable locations, applying A and
then B leaves every control file's trimmed content equal to B's token with
no residue of A (taking B = A gives idempotence), and reading after an
apply yields RawValue equal to the applied token at every location — the
sysfs control file replaces its value wholesale on each write even though
the open is write-in-place with no truncation (see `writeLoc`). -/
theorem apply_idempotent_roundtrip (A B : EppValue) (locs : List LocState)
    (h : ∀ l ∈ locs, l.behavior = .writable) :
    (apply_profile A.as_str locs).2 = none ∧
    (∀ l ∈ (apply_profile A.as_str locs).1, strTrim l.content = A.as_str) ∧
    (apply_profile B.as_str (apply_profile A.as_str locs).1).2 = none ∧
    (∀ l ∈ (apply_profile B.as_str (apply_profile A.as_str locs).1).1,
      strTrim l.content = B.as_str) ∧
    ((∀ l ∈ locs, wellFormedLoc l) →
      ∃ ps ws, collectData (apply_profile A.as_str locs).1 = .ok (ps, ws) ∧
        ∀ pr ∈ ps, pr.2 = A.as_str) := by
  have h1 : apply_profile A.as_str locs = (locs.map (writeLoc A.as_str), none) :=
    apply_all_writable _ locs h
  have hbeh : ∀ l ∈ locs.map (writeLoc A.as_str), l.behavior = .writable := by
    intro l hl
    obtain ⟨x, hx, rfl⟩ := List.mem_map.mp hl
    exact h x hx
  have h2 : apply_profile B.as_str (locs.map (writeLoc A.as_str)) =
      ((locs.map (writeLoc A.as_str)).map (writeLoc B.as_str), none) :=
    apply_all_writable _ _ hbeh
  refine ⟨by rw [h1], ?_, by rw [h1, h2], ?_, ?_⟩
  · rw [h1]
    intro l hl
    obtain ⟨x, hx, rfl⟩ := List.mem_map.mp hl
    exact strTrim_token A
  · rw [h1, h2]
    intro l hl
    obtain ⟨x, hx, rfl⟩ := List.mem_map.mp hl
    exact strTrim_token B
  · intro hwf
    rw [h1]
    have hclean : ∀ l ∈ locs.map (writeLoc A.as_str), cleanLoc l := by
      intro l hl
      obtain ⟨x, hx, rfl⟩ := List.mem_map.mp hl
      right
      obtain ⟨⟨s, n, hs, hp⟩, hre⟩ := hwf x hx
      exact ⟨⟨s, n, hs, hp⟩, hre⟩
    obtain ⟨ps, ws, hok, hval⟩ := collectData_clean _ hclean
    refine ⟨ps, ws, hok, ?_⟩
    intro pr hpr
    obtain ⟨l, hl, hv⟩ := hval pr hpr
    obtain ⟨x, hx, rfl⟩ := List.mem_map.mp hl
    rw [hv]
    exact strTrim_token A

/-- Witness for the C5 theorem: performance then power on one location
succeeds and leaves trimmed content "power". -/
theorem apply_idempotent_roundtrip_witness :
    (apply_profile EppValue.power.as_str
      (apply_profile EppValue.performance.as_str
        [⟨⟨"cpu0"⟩, "balance_performance\n", .writable, none⟩]).1).2 = none ∧
    strTrim (writeLoc EppValue.power.as_str
      (writeLoc EppValue.performance.as_str
        ⟨⟨"cpu0"⟩, "balance_performance\n", .writable, none⟩)).content =
      EppValue.power.as_str :=
  ⟨(apply_idempotent_roundtrip .performance .power
      [⟨⟨"cpu0"⟩, "balance_performance\n", .writable, none⟩] (by decide)).2.2.1,
   (apply_idempotent_roundtrip .performance .power
      [⟨⟨"cpu0"⟩, "balance_performance\n", .writable, none⟩] (by decide)).2.2.2.1
     (writeLoc EppValue.power.as_str
       (writeLoc EppValue.performance.as_str
         ⟨⟨"cpu0"⟩, "balance_performance\n", .writable, none⟩)) (by decide)⟩

/-- C3 (amended): with all locations before `bad` writable and `bad`
failing, apply writes the token to every location before `bad`, leaves
every location after `bad` untouched, leaves `bad` itself untouched except
that a flush failure (which happens after the write) leaves the new
content, and stops with: a distinct PermissionError whose message carries
the path and the privilege guidance on a permission-denied open; an
IOError message carrying the path and the cause on any other open failure;
and the BARE underlying error — cause only, no path — on a write or flush
failure, which `?` propagates unchanged. -/
theorem apply_partial_failure (token : String) (good : List LocState) (bad : LocState)
    (rest : List LocState) (hg : ∀ l ∈ good, l.behavior = .writable)
    (hb : bad.behavior ≠ .writable) :
    apply_profile token (good ++ bad :: rest) =
      (good.map (writeLoc token) ++ badResult token bad :: rest, some (badErr bad)) ∧
    (∀ d, bad.behavior = .openPermDenied d →
      badErr bad = .permission bad.path.pathString d ∧
      containsSub (applyErrMsg (badErr bad)).data bad.path.pathString.data ∧
      containsSub (applyErrMsg (badErr bad)).data guidanceMsg.data) ∧
    (∀ d, bad.behavior = .openOtherErr d →
      badErr bad = .openFail bad.path.pathString d ∧
      containsSub (applyErrMsg (badErr bad)).data bad.path.pathString.data ∧
      containsSub (applyErrMsg (badErr bad)).data d.data) ∧
    (∀ e, bad.behavior = .writeErr e ∨ bad.behavior = .flushErr e →
      badErr bad = .ioErr e ∧ applyErrMsg (badErr bad) = e.msg) ∧
    (∀ e, bad.behavior = .writeErr e → badResult token bad = bad) ∧
    (∀ e, bad.behavior = .flushErr e → badResult token bad = writeLoc token bad) := by
  refine ⟨?_, ?_, ?_, ?_, ?_, ?_⟩
  · induction good with
    | nil =>
      cases hbb : bad.behavior with
      | writable => exact absurd hbb hb
      | openPermDenied d =>
        simp only [List.nil_append, List.map_nil, apply_profile, badResult, badErr, hbb]
      | openOtherErr d =>
        simp only [List.nil_append, List.map_nil, apply_profile, badResult, badErr, hbb]
      | writeErr e =>
        simp only [List.nil_append, List.map_nil, apply_profile, badResult, badErr, hbb]
      | flushErr e =>
        simp only [List.nil_append, List.map_nil, apply_profile, badResult, badErr, hbb]
    | cons x g ih =>
      have hx : x.behavior = .writable := hg x (by simp)
      have ih2 := ih (fun y hy => hg y (by simp [hy]))
      simp only [List.cons_append, apply_profile, hx, List.map, List.append_eq, ih2]
  · intro d hbb
    have hbe : badErr bad = .permission bad.path.pathString d := by
      simp only [badErr, hbb]
    rw [hbe]
    refine ⟨rfl, ?_, ?_⟩
    · refine ⟨"\nPermission error for writing to ".data,
        (".\n" ++ guidanceMsg ++ "\nError details: " ++ d).data, ?_⟩
      simp [applyErrMsg, String.data_append, List.append_assoc]
    · refine ⟨("\nPermission error for writing to " ++ bad.path.pathString ++ ".\n").data,
        ("\nError details: " ++ d).data, ?_⟩
      simp [applyErrMsg, String.data_append, List.append_assoc]
  · intro d hbb
    have hbe : badErr bad = .openFail bad.path.pathString d := by
      simp only [badErr, hbb]
    rw [hbe]
    refine ⟨rfl, ?_, ?_⟩
    · refine ⟨"\nFailed to open ".data,
        (" for writing.\nError details: " ++ d).data, ?_⟩
      simp [applyErrMsg, String.data_append, List.append_assoc]
    · refine ⟨("\nFailed to open " ++ bad.path.pathString ++
          " for writing.\nError details: ").data, [], ?_⟩
      simp [applyErrMsg, String.data_append, List.append_assoc]
  · intro e hbb
    have hbe : badErr bad = .ioErr e := by
      rcases hbb with hbb | hbb <;> simp only [badErr, hbb]
    rw [hbe]
    exact ⟨rfl, rfl⟩
  · intro e hbb
    simp only [badResult, hbb]
  · intro e hbb
    simp only [badResult, hbb]

/-- Witness for the C3 theorem: a permission-denied middle location stops
the walk after the first location is written. -/
theorem apply_partial_failure_witness :
    apply_profile "power"
      ([⟨⟨"cpu0"⟩, "performance\n", .writable, none⟩] ++
        ⟨⟨"cpu1"⟩, "performance\n", .openPermDenied "Permission denied (os error 13)", none⟩ ::
        [⟨⟨"cpu2"⟩, "performance\n", .writable, none⟩]) =
      ([⟨⟨"cpu0"⟩, "performance\n", .writable, none⟩].map (writeLoc "power") ++
        badResult "power"
          ⟨⟨"cpu1"⟩, "performance\n", .openPermDenied "Permission denied (os error 13)", none⟩ ::
        [⟨⟨"cpu2"⟩, "performance\n", .writable, none⟩],
       some (badErr
        ⟨⟨"cpu1"⟩, "performance\n", .openPermDenied "Permission denied (os error 13)", none⟩)) :=
  (apply_partial_failure "power"
    [⟨⟨"cpu0"⟩, "performance\n", .writable, none⟩]
    ⟨⟨"cpu1"⟩, "performance\n", .openPermDenied "Permission denied (os error 13)", none⟩
    [⟨⟨"cpu2"⟩, "performance\n", .writable, none⟩]
    (by decide) (by decide)).1

/-- C3 counterexample: a flush failure at the middle location k refutes the
claim as stated: location k does NOT stay untouched (the write preceding
the failing flush already replaced its content), and the propagated error
is the bare underlying `io::Error`, whose message does not contain the
failing path. -/
theorem apply_flush_failure_modifies_and_lacks_path :
    apply_profile "power"
      [⟨⟨"cpu0"⟩, "balance_performance\n", .writable, none⟩,
       ⟨⟨"cpu1"⟩, "balance_performance\n", .flushErr ⟨.other, "Input/output error"⟩, none⟩,
       ⟨⟨"cpu2"⟩, "balance_performance\n", .writable, none⟩] =
      ([⟨⟨"cpu0"⟩, "power\n", .writable, none⟩,
        ⟨⟨"cpu1"⟩, "power\n", .flushErr ⟨.other, "Input/output error"⟩, none⟩,
        ⟨⟨"cpu2"⟩, "balance_performance\n", .writable, none⟩],
       some (.ioErr ⟨.other, "Input/output error"⟩)) ∧
    (⟨⟨"cpu1"⟩, "power\n", .flushErr ⟨.other, "Input/output error"⟩, none⟩ : LocState) ≠
      ⟨⟨"cpu1"⟩, "balance_performance\n", .flushErr ⟨.other, "Input/output error"⟩, none⟩ ∧
    ¬ containsSub (applyErrMsg (.ioErr ⟨.other, "Input/output error"⟩)).data
        (EppPath.pathString ⟨"cpu1"⟩).data := by
  refine ⟨rfl, by decide, ?_⟩
  intro hsub
  have hlen := containsSub_length hsub
  have h1 : (applyErrMsg (.ioErr ⟨.other, "Input/output error"⟩)).data.length = 18 := by decide
  have h2 : (EppPath.pathString ⟨"cpu1"⟩).data.length = 66 := by decide
  omega

end EppCli
